import Mathlib

/-!
# A verification development for `ConfigSynchronizer.cpp`

This file shallowly embeds the configuration-synchronization program
(`src/ConfigSynchronizer.cpp`) in Lean 4 and settles the specified
properties of its store, wire codec, merge logic and connection handler.

Modelling choices:
* C++ `std::string` values are embedded as `List Char` (`Str`).
* The global `std::map<std::string, std::map<std::string, std::string>>`
  is embedded as a sorted association list (`Store`); `std::map`'s
  comparator (`operator<` on strings, lexicographic) is embedded as
  `strLt`, and the `std::map` ordering invariant as `Canon`.
* Socket reads are embedded as the list of byte chunks successive
  successful `recv` calls return; the end of the list is connection close.
-/

set_option maxHeartbeats 1000000

abbrev Str := List Char

/-- Converts a Lean string literal to the byte-list embedding of a C++ string. -/
def chars (s : String) : Str := s.toList

/-- Lexicographic order on strings by code point, the comparator of
`std::map<std::string, _>` (`operator<` via `char_traits::compare`). -/
def strLt : Str → Str → Bool
  | _, [] => false
  | [], _ :: _ => true
  | a :: as, b :: bs =>
    if a.toNat < b.toNat then true
    else if b.toNat < a.toNat then false
    else strLt as bs

theorem charToNat_inj {a b : Char} (h : a.toNat = b.toNat) : a = b := by
  have hv : a.val.toNat = b.val.toNat := h
  exact Char.ext (UInt32.ext (by omega))

theorem strLt_cons (x y : Char) (xs ys : Str) :
    strLt (x :: xs) (y :: ys) =
      if x.toNat < y.toNat then true
      else if y.toNat < x.toNat then false
      else strLt xs ys := rfl

theorem strLt_irrefl (s : Str) : strLt s s = false := by
  induction s with
  | nil => rfl
  | cons a as ih => rw [strLt_cons, if_neg (Nat.lt_irrefl _), if_neg (Nat.lt_irrefl _), ih]

theorem strLt_conn : ∀ a b : Str, strLt a b = false → strLt b a = false → a = b
  | [], [], _, _ => rfl
  | [], _ :: _, h, _ => by simp [strLt] at h
  | _ :: _, [], _, h => by simp [strLt] at h
  | x :: xs, y :: ys, h1, h2 => by
    rw [strLt_cons] at h1 h2
    rcases Nat.lt_trichotomy x.toNat y.toNat with hlt | heq | hgt
    · rw [if_pos hlt] at h1; simp at h1
    · have hx : x = y := charToNat_inj heq
      subst hx
      rw [if_neg (Nat.lt_irrefl _), if_neg (Nat.lt_irrefl _)] at h1 h2
      rw [strLt_conn xs ys h1 h2]
    · rw [if_pos hgt] at h2; simp at h2

theorem strLt_asymm : ∀ a b : Str, strLt a b = true → strLt b a = false
  | _ :: _, [], h => by simp [strLt] at h
  | [], [], h => by simp [strLt] at h
  | [], _ :: _, _ => rfl
  | x :: xs, y :: ys, h => by
    rw [strLt_cons] at h ⊢
    rcases Nat.lt_trichotomy x.toNat y.toNat with hlt | heq | hgt
    · rw [if_neg (Nat.lt_asymm hlt), if_pos hlt]
    · rw [if_neg (by omega), if_neg (by omega)] at h
      rw [if_neg (by omega), if_neg (by omega)]
      exact strLt_asymm xs ys h
    · rw [if_neg (Nat.lt_asymm hgt), if_pos hgt] at h
      simp at h

theorem strLt_trans : ∀ a b c : Str, strLt a b = true → strLt b c = true → strLt a c = true
  | _, [], _, h1, _ => by simp [strLt] at h1
  | _, _ :: _, [], _, h2 => by simp [strLt] at h2
  | [], _ :: _, _ :: _, _, _ => rfl
  | x :: xs, y :: ys, z :: zs, h1, h2 => by
    rw [strLt_cons] at h1 h2 ⊢
    rcases Nat.lt_trichotomy x.toNat y.toNat with hxy | hxy | hxy
    · rcases Nat.lt_trichotomy y.toNat z.toNat with hyz | hyz | hyz
      · rw [if_pos (Nat.lt_trans hxy hyz)]
      · rw [if_pos (by omega)]
      · rw [if_neg (Nat.lt_asymm hyz), if_pos hyz] at h2
        simp at h2
    · rcases Nat.lt_trichotomy y.toNat z.toNat with hyz | hyz | hyz
      · rw [if_pos (by omega)]
      · rw [if_neg (by omega), if_neg (by omega)] at h1
        rw [if_neg (by omega), if_neg (by omega)] at h2
        rw [if_neg (by omega), if_neg (by omega)]
        exact strLt_trans xs ys zs h1 h2
      · rw [if_neg (Nat.lt_asymm hyz), if_pos hyz] at h2
        simp at h2
    · rw [if_neg (Nat.lt_asymm hxy), if_pos hxy] at h1
      simp at h1

theorem strLt_ne {a b : Str} (h : strLt a b = true) : a ≠ b := by
  intro he; subst he; rw [strLt_irrefl] at h; exact Bool.noConfusion h

/-! ## The configuration store

`g_config_data : std::map<std::string, std::map<std::string, std::string>>`
is embedded as an association list sorted strictly by `strLt` at both
levels (the representation invariant `Canon` that every reachable
`std::map` satisfies). -/

abbrev KeyMap := List (Str × Str)

abbrev Store := List (Str × KeyMap)

/-- `std::map::find` on an inner key map. -/
def lookupKey : KeyMap → Str → Option Str
  | [], _ => none
  | q :: rest, k => if q.1 = k then some q.2 else lookupKey rest k

/-- `std::map::find` on the outer section map. -/
def lookupSec : Store → Str → Option KeyMap
  | [], _ => none
  | p :: rest, s => if p.1 = s then some p.2 else lookupSec rest s

/-- Looks up the current value of `(section, key)`; `none` when the section
or the key is absent. -/
def lookupVal (st : Store) (s k : Str) : Option Str :=
  (lookupSec st s).bind (fun m => lookupKey m k)

/-- `ConfigSynchronizer::get_config_value`: returns the stored value, or
`d` when the section or key is absent (src/ConfigSynchronizer.cpp:130-140). -/
def get_config_value (st : Store) (s k d : Str) : Str :=
  (lookupVal st s k).getD d

/-- `inner_map[key] = value`: ordered insert-or-assign into a key map,
following the `std::map` comparator `strLt`. -/
def insKey : KeyMap → Str → Str → KeyMap
  | [], k, v => [(k, v)]
  | q :: rest, k, v =>
    if strLt k q.1 then (k, v) :: q :: rest
    else if strLt q.1 k then q :: insKey rest k v
    else (q.1, v) :: rest

/-- `ConfigSynchronizer::set_config_value`:
`g_config_data[section][key] = value` (src/ConfigSynchronizer.cpp:142-146). -/
def set_config_value : Store → Str → Str → Str → Store
  | [], s, k, v => [(s, [(k, v)])]
  | p :: rest, s, k, v =>
    if strLt s p.1 then (s, [(k, v)]) :: p :: rest
    else if strLt p.1 s then p :: set_config_value rest s k v
    else (p.1, insKey p.2 k v) :: rest

/-- The ordering invariant `std::map` maintains: both levels strictly
sorted by the comparator. -/
def Canon (st : Store) : Prop :=
  st.Pairwise (fun a b => strLt a.1 b.1 = true) ∧
    ∀ p ∈ st, p.2.Pairwise (fun a b => strLt a.1 b.1 = true)

theorem lookupKey_insKey_self : ∀ (m : KeyMap) (k v : Str),
    lookupKey (insKey m k v) k = some v
  | [], k, v => by simp [insKey, lookupKey]
  | q :: rest, k, v => by
    by_cases h1 : strLt k q.1 = true
    · simp [insKey, h1, lookupKey]
    · by_cases h2 : strLt q.1 k = true
      · have hne : q.1 ≠ k := fun he => by
          rw [he, strLt_irrefl] at h2; exact Bool.noConfusion h2
        simp [insKey, h1, h2, lookupKey, hne, lookupKey_insKey_self rest k v]
      · have he : k = q.1 :=
          strLt_conn _ _ (Bool.eq_false_iff.mpr h1) (Bool.eq_false_iff.mpr h2)
        rw [he]
        simp [insKey, strLt_irrefl, lookupKey]

theorem lookupKey_insKey_ne : ∀ (m : KeyMap) (k k' v : Str), k ≠ k' →
    lookupKey (insKey m k' v) k = lookupKey m k
  | [], k, k', v, hne => by
    have h : k' ≠ k := fun h => hne h.symm
    simp [insKey, lookupKey, h]
  | q :: rest, k, k', v, hne => by
    have hka : k' ≠ k := fun h => hne h.symm
    by_cases h1 : strLt k' q.1 = true
    · simp [insKey, h1, lookupKey, hka]
    · by_cases h2 : strLt q.1 k' = true
      · simp only [insKey, h1, h2, if_true, if_false, Bool.false_eq_true, lookupKey]
        rw [lookupKey_insKey_ne rest k k' v hne]
      · have he : k' = q.1 :=
          strLt_conn _ _ (Bool.eq_false_iff.mpr h1) (Bool.eq_false_iff.mpr h2)
        have hq : q.1 ≠ k := fun h => hne (h ▸ he).symm
        simp [insKey, h1, h2, lookupKey, hq]

theorem lookupVal_set_self : ∀ (st : Store) (s k v : Str),
    lookupVal (set_config_value st s k v) s k = some v
  | [], s, k, v => by simp [set_config_value, lookupVal, lookupSec, lookupKey]
  | p :: rest, s, k, v => by
    by_cases h1 : strLt s p.1 = true
    · simp [set_config_value, h1, lookupVal, lookupSec, lookupKey]
    · by_cases h2 : strLt p.1 s = true
      · have hne : p.1 ≠ s := fun he => by
          rw [he, strLt_irrefl] at h2; exact Bool.noConfusion h2
        simp only [set_config_value, h1, h2, if_true, if_false, Bool.false_eq_true,
          lookupVal, lookupSec, hne]
        exact lookupVal_set_self rest s k v
      · have he : s = p.1 :=
          strLt_conn _ _ (Bool.eq_false_iff.mpr h1) (Bool.eq_false_iff.mpr h2)
        rw [he]
        simp [set_config_value, strLt_irrefl, lookupVal, lookupSec,
          lookupKey_insKey_self]

/-- A section strictly below every section of a sorted store is absent. -/
theorem lookupSec_none_of_lt : ∀ (st : Store) (s : Str),
    st.Pairwise (fun a b => strLt a.1 b.1 = true) →
    (∀ p ∈ st, strLt s p.1 = true) → lookupSec st s = none
  | [], _, _, _ => rfl
  | p :: rest, s, hp, hlt => by
    have hne : p.1 ≠ s := fun he =>
      strLt_ne (hlt p (List.mem_cons_self _ _)) he.symm
    simp only [lookupSec, hne, if_false]
    exact lookupSec_none_of_lt rest s (List.Pairwise.sublist (by simp) hp)
      (fun q hq => hlt q (List.mem_cons_of_mem _ hq))

/-- Setting `(s', k')` does not disturb the value of a different `(s, k)`,
on a store satisfying the `std::map` invariant. -/
theorem lookupVal_set_ne : ∀ (st : Store) (s k s' k' v : Str), Canon st →
    ¬(s = s' ∧ k = k') →
    lookupVal (set_config_value st s' k' v) s k = lookupVal st s k
  | [], s, k, s', k', v, _, hne => by
    by_cases hs : s = s'
    · subst hs
      have hk : k ≠ k' := fun h => hne ⟨rfl, h⟩
      have hk' : k' ≠ k := fun h => hk h.symm
      simp [set_config_value, lookupVal, lookupSec, lookupKey, hk']
    · have hs' : s' ≠ s := fun h => hs h.symm
      simp [set_config_value, lookupVal, lookupSec, hs']
  | p :: rest, s, k, s', k', v, hc, hne => by
    have hcrest : Canon rest :=
      ⟨(List.pairwise_cons.mp hc.1).2,
       fun q hq => hc.2 q (List.mem_cons_of_mem _ hq)⟩
    by_cases h1 : strLt s' p.1 = true
    · -- a fresh section `s'` is inserted in front
      rw [show set_config_value (p :: rest) s' k' v = (s', [(k', v)]) :: p :: rest from by
        simp [set_config_value, h1]]
      by_cases hs : s' = s
      · subst hs
        have hk : k' ≠ k := fun h => hne ⟨rfl, h.symm⟩
        have hnone : lookupSec (p :: rest) s' = none :=
          lookupSec_none_of_lt (p :: rest) s' hc.1
            (by
              intro q hq
              rcases List.mem_cons.mp hq with he | hm
              · exact he ▸ h1
              · exact strLt_trans _ _ _ h1 ((List.pairwise_cons.mp hc.1).1 q hm))
        have hnone' : (if p.1 = s' then some p.2 else lookupSec rest s') =
            (none : Option KeyMap) := hnone
        simp [lookupVal, lookupSec, lookupKey, hk, hnone']
      · simp [lookupVal, lookupSec, hs]
    · by_cases h2 : strLt p.1 s' = true
      · rw [show set_config_value (p :: rest) s' k' v = p :: set_config_value rest s' k' v from by
          simp [set_config_value, h1, h2]]
        by_cases hp : p.1 = s
        · simp [lookupVal, lookupSec, hp]
        · simp only [lookupVal, lookupSec, hp, if_false]
          exact lookupVal_set_ne rest s k s' k' v hcrest hne
      · have he : s' = p.1 :=
          strLt_conn _ _ (Bool.eq_false_iff.mpr h1) (Bool.eq_false_iff.mpr h2)
        rw [show set_config_value (p :: rest) s' k' v = (p.1, insKey p.2 k' v) :: rest from by
          simp [set_config_value, h1, h2]]
        by_cases hp : p.1 = s
        · have hss : s = s' := by rw [← hp, he]
          have hk : k ≠ k' := fun h => hne ⟨hss, h⟩
          simp only [lookupVal, lookupSec, hp, if_pos rfl, Option.bind_some]
          exact lookupKey_insKey_ne p.2 k k' v hk
        · simp [lookupVal, lookupSec, hp]

/-- Setting a key in section `s'` does not create, remove or change any
other section. -/
theorem lookupSec_set_ne : ∀ (st : Store) (s s' k' v : Str), s ≠ s' →
    lookupSec (set_config_value st s' k' v) s = lookupSec st s
  | [], s, s', k', v, hne => by
    have h : s' ≠ s := fun h => hne h.symm
    simp [set_config_value, lookupSec, h]
  | p :: rest, s, s', k', v, hne => by
    have hsa : s' ≠ s := fun h => hne h.symm
    by_cases h1 : strLt s' p.1 = true
    · rw [show set_config_value (p :: rest) s' k' v = (s', [(k', v)]) :: p :: rest from by
        simp [set_config_value, h1]]
      simp [lookupSec, hsa]
    · by_cases h2 : strLt p.1 s' = true
      · rw [show set_config_value (p :: rest) s' k' v = p :: set_config_value rest s' k' v from by
          simp [set_config_value, h1, h2]]
        by_cases hp : p.1 = s
        · simp [lookupSec, hp]
        · simp only [lookupSec, hp, if_false]
          exact lookupSec_set_ne rest s s' k' v hne
      · have he : s' = p.1 :=
          strLt_conn _ _ (Bool.eq_false_iff.mpr h1) (Bool.eq_false_iff.mpr h2)
        rw [show set_config_value (p :: rest) s' k' v = (p.1, insKey p.2 k' v) :: rest from by
          simp [set_config_value, h1, h2]]
        have hp : p.1 ≠ s := fun h => hne (by rw [← h, he])
        simp [lookupSec, hp]

theorem mem_insKey : ∀ (m : KeyMap) (k v : Str) (q : Str × Str),
    q ∈ insKey m k v → q = (k, v) ∨ q ∈ m
  | [], k, v, q, hq => by simpa [insKey] using hq
  | q0 :: rest, k, v, q, hq => by
    by_cases h1 : strLt k q0.1 = true
    · rw [show insKey (q0 :: rest) k v = (k, v) :: q0 :: rest from by simp [insKey, h1]] at hq
      rcases List.mem_cons.mp hq with he | hm
      · exact Or.inl he
      · exact Or.inr hm
    · by_cases h2 : strLt q0.1 k = true
      · rw [show insKey (q0 :: rest) k v = q0 :: insKey rest k v from by
          simp [insKey, h1, h2]] at hq
        rcases List.mem_cons.mp hq with he | hm
        · exact Or.inr (he ▸ List.mem_cons_self _ _)
        · rcases mem_insKey rest k v q hm with h | h
          · exact Or.inl h
          · exact Or.inr (List.mem_cons_of_mem _ h)
      · have he : k = q0.1 :=
          strLt_conn _ _ (Bool.eq_false_iff.mpr h1) (Bool.eq_false_iff.mpr h2)
        rw [show insKey (q0 :: rest) k v = (q0.1, v) :: rest from by
          simp [insKey, h1, h2]] at hq
        rcases List.mem_cons.mp hq with h | h
        · exact Or.inl (by rw [h, ← he])
        · exact Or.inr (List.mem_cons_of_mem _ h)

theorem insKey_pairwise : ∀ (m : KeyMap) (k v : Str),
    m.Pairwise (fun a b => strLt a.1 b.1 = true) →
    (insKey m k v).Pairwise (fun a b => strLt a.1 b.1 = true)
  | [], k, v, _ => by simp [insKey]
  | q0 :: rest, k, v, hp => by
    obtain ⟨hq0, hrest⟩ := List.pairwise_cons.mp hp
    by_cases h1 : strLt k q0.1 = true
    · rw [show insKey (q0 :: rest) k v = (k, v) :: q0 :: rest from by simp [insKey, h1]]
      refine List.pairwise_cons.mpr ⟨?_, hp⟩
      intro q hq
      rcases List.mem_cons.mp hq with he | hm
      · exact he ▸ h1
      · exact strLt_trans _ _ _ h1 (hq0 q hm)
    · by_cases h2 : strLt q0.1 k = true
      · rw [show insKey (q0 :: rest) k v = q0 :: insKey rest k v from by
          simp [insKey, h1, h2]]
        refine List.pairwise_cons.mpr ⟨?_, insKey_pairwise rest k v hrest⟩
        intro q hq
        rcases mem_insKey rest k v q hq with he | hm
        · exact he ▸ h2
        · exact hq0 q hm
      · have he : k = q0.1 :=
          strLt_conn _ _ (Bool.eq_false_iff.mpr h1) (Bool.eq_false_iff.mpr h2)
        rw [show insKey (q0 :: rest) k v = (q0.1, v) :: rest from by
          simp [insKey, h1, h2]]
        exact List.pairwise_cons.mpr ⟨fun q hq => hq0 q hq, hrest⟩

theorem mem_set_sections : ∀ (st : Store) (s k v : Str) (p : Str × KeyMap),
    p ∈ set_config_value st s k v → p.1 = s ∨ p ∈ st
  | [], s, k, v, p, hp => by
    simp only [set_config_value, List.mem_singleton] at hp
    exact Or.inl (by rw [hp])
  | p0 :: rest, s, k, v, p, hp => by
    by_cases h1 : strLt s p0.1 = true
    · rw [show set_config_value (p0 :: rest) s k v = (s, [(k, v)]) :: p0 :: rest from by
        simp [set_config_value, h1]] at hp
      rcases List.mem_cons.mp hp with he | hm
      · exact Or.inl (by rw [he])
      · exact Or.inr hm
    · by_cases h2 : strLt p0.1 s = true
      · rw [show set_config_value (p0 :: rest) s k v = p0 :: set_config_value rest s k v from by
          simp [set_config_value, h1, h2]] at hp
        rcases List.mem_cons.mp hp with he | hm
        · exact Or.inr (he ▸ List.mem_cons_self _ _)
        · rcases mem_set_sections rest s k v p hm with h | h
          · exact Or.inl h
          · exact Or.inr (List.mem_cons_of_mem _ h)
      · have he : s = p0.1 :=
          strLt_conn _ _ (Bool.eq_false_iff.mpr h1) (Bool.eq_false_iff.mpr h2)
        rw [show set_config_value (p0 :: rest) s k v = (p0.1, insKey p0.2 k v) :: rest from by
          simp [set_config_value, h1, h2]] at hp
        rcases List.mem_cons.mp hp with h | h
        · exact Or.inl (by rw [h, ← he])
        · exact Or.inr (List.mem_cons_of_mem _ h)

/-- `std::map` keeps its ordering invariant across `operator[]` assignment. -/
theorem canon_set : ∀ (st : Store) (s k v : Str), Canon st →
    Canon (set_config_value st s k v)
  | [], s, k, v, _ => by
    constructor
    · simp [set_config_value]
    · intro p hp
      simp only [set_config_value, List.mem_singleton] at hp
      simp [hp]
  | p0 :: rest, s, k, v, hc => by
    obtain ⟨hpw, hin⟩ := hc
    obtain ⟨hp0, hrest⟩ := List.pairwise_cons.mp hpw
    have hcrest : Canon rest := ⟨hrest, fun q hq => hin q (List.mem_cons_of_mem _ hq)⟩
    by_cases h1 : strLt s p0.1 = true
    · rw [show set_config_value (p0 :: rest) s k v = (s, [(k, v)]) :: p0 :: rest from by
        simp [set_config_value, h1]]
      refine ⟨List.pairwise_cons.mpr ⟨?_, hpw⟩, ?_⟩
      · intro q hq
        rcases List.mem_cons.mp hq with he | hm
        · exact he ▸ h1
        · exact strLt_trans _ _ _ h1 (hp0 q hm)
      · intro q hq
        rcases List.mem_cons.mp hq with he | hm
        · simp [he]
        · exact hin q hm
    · by_cases h2 : strLt p0.1 s = true
      · rw [show set_config_value (p0 :: rest) s k v = p0 :: set_config_value rest s k v from by
          simp [set_config_value, h1, h2]]
        have hc' := canon_set rest s k v hcrest
        refine ⟨List.pairwise_cons.mpr ⟨?_, hc'.1⟩, ?_⟩
        · intro q hq
          rcases mem_set_sections rest s k v q hq with he | hm
          · exact he ▸ h2
          · exact hp0 q hm
        · intro q hq
          rcases List.mem_cons.mp hq with he | hm
          · exact he ▸ hin p0 (List.mem_cons_self _ _)
          · exact hc'.2 q hm
      · have he : s = p0.1 :=
          strLt_conn _ _ (Bool.eq_false_iff.mpr h1) (Bool.eq_false_iff.mpr h2)
        rw [show set_config_value (p0 :: rest) s k v = (p0.1, insKey p0.2 k v) :: rest from by
          simp [set_config_value, h1, h2]]
        refine ⟨List.pairwise_cons.mpr ⟨fun q hq => hp0 q hq, hrest⟩, ?_⟩
        intro q hq
        rcases List.mem_cons.mp hq with hqe | hm
        · rw [hqe]
          exact insKey_pairwise p0.2 k v (hin p0 (List.mem_cons_self _ _))
        · exact hin q (List.mem_cons_of_mem _ hm)

/-! ## Line splitting and record parsing

`update_config_from_string` reads the body with `std::getline` (which
consumes up to and including each `'\n'` and also yields a final
newline-less segment), and parses each line with `find(']')` /
`find('=', section_end)` / `substr`. -/

/-- `std::getline` applied repeatedly to a `stringstream` over `data`. -/
def splitLines : Str → List Str
  | [] => []
  | c :: cs =>
    if c = '\n' then [] :: splitLines cs
    else
      match splitLines cs with
      | [] => [[c]]
      | l :: ls => (c :: l) :: ls

/-- `s.find(c)` followed by the two `substr` calls: splits at the first
occurrence of `c`, `none` when `c` is absent (`std::string::npos`). -/
def breakAt (c : Char) : Str → Option (Str × Str)
  | [] => none
  | x :: xs =>
    if x = c then some ([], xs)
    else (breakAt c xs).map (fun p => (x :: p.1, p.2))

/-- The trailing-whitespace set `" \n\r\t"` of
`value.find_last_not_of(" \n\r\t")` (src/ConfigSynchronizer.cpp:183). -/
def isValWS (c : Char) : Bool := c = ' ' || c = '\n' || c = '\r' || c = '\t'

/-- `value.find_last_not_of(" \n\r\t")`: index of the last character outside
the set, `none` for `npos`. -/
def find_last_not_of : Str → Option Nat
  | [] => none
  | c :: cs =>
    match find_last_not_of cs with
    | some i => some (i + 1)
    | none => if isValWS c then none else some 0

/-- `value.erase(value.find_last_not_of(" \n\r\t") + 1)`: keeps the prefix up
to and including the last non-whitespace character (everything is erased
when `find_last_not_of` returns `npos`, since `npos + 1 == 0`). -/
def trimValue (v : Str) : Str :=
  match find_last_not_of v with
  | none => []
  | some i => v.take (i + 1)

/-- One loop iteration of `update_config_from_string` up to the record
split: a line parses to `(section, key, trimmed value)` when it is
nonempty, starts with `'['`, has a `']'`, and has a `'='` at or after the
`']'`; otherwise it is skipped (`none`). -/
def parseLine (line : Str) : Option (Str × Str × Str) :=
  match line with
  | '[' :: rest =>
    match breakAt ']' rest with
    | none => none
    | some (sec, afterSec) =>
      match breakAt '=' afterSec with
      | none => none
      | some (key, afterEq) => some (sec, key, trimValue afterEq)
  | _ => none

/-- All records a body decodes to, in order; malformed lines are dropped. -/
def parseRecords (data : Str) : List (Str × Str × Str) :=
  (splitLines data).filterMap parseLine

/-- One record's merge step inside `update_config_from_string`
(src/ConfigSynchronizer.cpp:185-190): compare the incoming value with
`get_config_value(section, key)` (default `""`) and `set` only on change,
marking `config_changed`. -/
def mergeStep (p : Store × Bool) (r : Str × Str × Str) : Store × Bool :=
  if get_config_value p.1 r.1 r.2.1 [] = r.2.2 then p
  else (set_config_value p.1 r.1 r.2.1 r.2.2, true)

/-- Folding `mergeStep` over a record list from a given store/flag pair. -/
def mergeFold (p : Store × Bool) (rs : List (Str × Str × Str)) : Store × Bool :=
  rs.foldl mergeStep p

/-- One full loop iteration of `update_config_from_string`: parse the line,
skip it if malformed, otherwise run the merge step. -/
def lineStep (p : Store × Bool) (line : Str) : Store × Bool :=
  match parseLine line with
  | none => p
  | some r => mergeStep p r

/-- `ConfigSynchronizer::update_config_from_string`
(src/ConfigSynchronizer.cpp:166-198): iterates `std::getline`, skips
malformed lines, merges each record, and returns the final store together
with `config_changed` (which decides whether `save_config` is invoked). -/
def update_config_from_string (st : Store) (data : Str) : Store × Bool :=
  (splitLines data).foldl lineStep (st, false)

theorem foldl_lineStep_eq (ls : List Str) (p : Store × Bool) :
    ls.foldl lineStep p = mergeFold p (ls.filterMap parseLine) := by
  induction ls generalizing p with
  | nil => rfl
  | cons a rest ih =>
    cases hf : parseLine a with
    | none => simp [List.filterMap_cons, hf, ih, lineStep, List.foldl_cons]
    | some b => simp [List.filterMap_cons, hf, ih, lineStep, mergeFold, List.foldl_cons]

/-- Malformed lines are skipped: the whole update is the merge fold over
exactly the well-formed records. -/
theorem update_eq_mergeFold (st : Store) (data : Str) :
    update_config_from_string st data = mergeFold (st, false) (parseRecords data) := by
  unfold update_config_from_string parseRecords
  exact foldl_lineStep_eq (splitLines data) (st, false)

theorem canon_mergeStep (p : Store × Bool) (r : Str × Str × Str)
    (hc : Canon p.1) : Canon (mergeStep p r).1 := by
  unfold mergeStep
  by_cases h : get_config_value p.1 r.1 r.2.1 [] = r.2.2
  · simpa [h]
  · simpa [h] using canon_set p.1 r.1 r.2.1 r.2.2 hc

theorem canon_mergeFold : ∀ (rs : List (Str × Str × Str)) (p : Store × Bool),
    Canon p.1 → Canon (mergeFold p rs).1
  | [], _, hc => hc
  | r :: rest, p, hc =>
    canon_mergeFold rest (mergeStep p r) (canon_mergeStep p r hc)

/-- Frame property of the merge fold: a `(section, key)` pair that appears
in none of the records keeps exactly its previous value (including
absence). -/
theorem lookupVal_mergeFold_ne :
    ∀ (rs : List (Str × Str × Str)) (p : Store × Bool) (s k : Str), Canon p.1 →
    (∀ r ∈ rs, ¬(s = r.1 ∧ k = r.2.1)) →
    lookupVal (mergeFold p rs).1 s k = lookupVal p.1 s k
  | [], _, _, _, _, _ => rfl
  | r :: rest, p, s, k, hc, hno => by
    have hstep : lookupVal (mergeStep p r).1 s k = lookupVal p.1 s k := by
      unfold mergeStep
      by_cases h : get_config_value p.1 r.1 r.2.1 [] = r.2.2
      · simp [h]
      · simp only [h, if_false]
        exact lookupVal_set_ne p.1 s k r.1 r.2.1 r.2.2 hc
          (hno r (List.mem_cons_self _ _))
    rw [show mergeFold p (r :: rest) = mergeFold (mergeStep p r) rest from rfl,
      lookupVal_mergeFold_ne rest (mergeStep p r) s k (canon_mergeStep p r hc)
        (fun q hq => hno q (List.mem_cons_of_mem _ hq)),
      hstep]

/-- Section-level frame property: a section mentioned by no record is left
exactly as it was (present with the same key map, or absent). -/
theorem lookupSec_mergeFold_ne :
    ∀ (rs : List (Str × Str × Str)) (p : Store × Bool) (s : Str),
    (∀ r ∈ rs, s ≠ r.1) →
    lookupSec (mergeFold p rs).1 s = lookupSec p.1 s
  | [], _, _, _ => rfl
  | r :: rest, p, s, hno => by
    have hstep : lookupSec (mergeStep p r).1 s = lookupSec p.1 s := by
      unfold mergeStep
      by_cases h : get_config_value p.1 r.1 r.2.1 [] = r.2.2
      · simp [h]
      · simp only [h, if_false]
        exact lookupSec_set_ne p.1 s r.1 r.2.1 r.2.2 (hno r (List.mem_cons_self _ _))
    rw [show mergeFold p (r :: rest) = mergeFold (mergeStep p r) rest from rfl,
      lookupSec_mergeFold_ne rest (mergeStep p r) s
        (fun q hq => hno q (List.mem_cons_of_mem _ hq)),
      hstep]

theorem get_mergeStep_self (p : Store × Bool) (r : Str × Str × Str) :
    get_config_value (mergeStep p r).1 r.1 r.2.1 [] = r.2.2 := by
  unfold mergeStep
  by_cases h : get_config_value p.1 r.1 r.2.1 [] = r.2.2
  · simp [h]
  · simp only [h, if_false]
    unfold get_config_value
    rw [lookupVal_set_self]
    rfl

/-- After merging a record list in which every `(section, key)` occurs at
most once, the effective value of each record's key is that record's
value. -/
theorem get_mergeFold_eq :
    ∀ (rs : List (Str × Str × Str)) (p : Store × Bool), Canon p.1 →
    (rs.map (fun r => (r.1, r.2.1))).Nodup →
    ∀ r ∈ rs, get_config_value (mergeFold p rs).1 r.1 r.2.1 [] = r.2.2
  | [], _, _, _, _, hr => absurd hr (List.not_mem_nil _)
  | r0 :: rest, p, hc, hnd, r, hr => by
    obtain ⟨hnotin, hndrest⟩ := List.nodup_cons.mp hnd
    rcases List.mem_cons.mp hr with he | hm
    · subst he
      rw [show mergeFold p (r :: rest) = mergeFold (mergeStep p r) rest from rfl]
      unfold get_config_value
      rw [lookupVal_mergeFold_ne rest (mergeStep p r) r.1 r.2.1
        (canon_mergeStep p r hc)
        (by
          intro q hq hand
          apply hnotin
          show (r.1, r.2.1) ∈ List.map (fun r => (r.1, r.2.1)) rest
          rw [hand.1, hand.2]
          exact List.mem_map_of_mem _ hq)]
      exact get_mergeStep_self p r
    · exact get_mergeFold_eq rest (mergeStep p r0) (canon_mergeStep p r0 hc)
        hndrest r hm

/-- If every record's value already equals the effective stored value, the
merge fold is a no-op and leaves the `config_changed` flag untouched. -/
theorem mergeFold_nop :
    ∀ (rs : List (Str × Str × Str)) (st : Store) (b : Bool),
    (∀ r ∈ rs, get_config_value st r.1 r.2.1 [] = r.2.2) →
    mergeFold (st, b) rs = (st, b)
  | [], _, _, _ => rfl
  | r :: rest, st, b, hall => by
    have hr := hall r (List.mem_cons_self _ _)
    rw [show mergeFold (st, b) (r :: rest) = mergeFold (mergeStep (st, b) r) rest from rfl,
      show mergeStep (st, b) r = (st, b) from by unfold mergeStep; simp [hr]]
    exact mergeFold_nop rest st b (fun q hq => hall q (List.mem_cons_of_mem _ hq))

/-! ## Serialization and framing

`serialize_config` writes `content.length()` in decimal, a newline, then
one line `[section]key=value\n` per key per section, iterating both
`std::map`s in comparator order. -/

/-- Decimal digit rendering of a `Nat` (`operator<<(std::ostream&, size_t)`),
with an explicit fuel argument that is always sufficient. -/
def natDecAux : Nat → Nat → Str → Str
  | 0, _, acc => acc
  | fuel + 1, n, acc =>
    if n < 10 then (n % 10).digitChar :: acc
    else natDecAux fuel (n / 10) ((n % 10).digitChar :: acc)

/-- The ASCII decimal representation of `n`. -/
def natDec (n : Nat) : Str := natDecAux (n + 1) n []

/-- The record line `[section]key=value` (without its terminating newline). -/
def lineOf (s k v : Str) : Str := '[' :: (s ++ ']' :: (k ++ '=' :: v))

/-- The body built by the two nested loops of `serialize_config`
(src/ConfigSynchronizer.cpp:154-159). -/
def bodyOf (st : Store) : Str :=
  st.flatMap (fun p => p.2.flatMap (fun q => lineOf p.1 q.1 q.2 ++ ['\n']))

/-- All `(section, key, value)` records of a store, in iteration order. -/
def recordsOf (st : Store) : List (Str × Str × Str) :=
  st.flatMap (fun p => p.2.map (fun q => (p.1, q.1, q.2)))

/-- `ConfigSynchronizer::serialize_config` (src/ConfigSynchronizer.cpp:148-164):
`content.length()` in decimal, `'\n'`, then the body. -/
def serialize_config (st : Store) : Str :=
  natDec (bodyOf st).length ++ '\n' :: bodyOf st

/-- `isspace` in the default locale, as used by `strtoull` under
`std::stoull`. -/
def isSpaceC (c : Char) : Bool :=
  c.toNat = 32 || c.toNat = 9 || c.toNat = 10 || c.toNat = 11 ||
    c.toNat = 12 || c.toNat = 13

/-- Value of an ASCII digit character. -/
def dval (c : Char) : Nat := c.toNat - 48

/-- The number denoted by a digit string, most significant digit first. -/
def digitsToNat (ds : Str) : Nat := ds.foldl (fun a c => a * 10 + dval c) 0

/-- `std::stoull(s)` (base 10): skip leading whitespace, accept an optional
sign, require at least one digit, ignore trailing garbage; `none` models a
thrown `std::invalid_argument` (no digits) or `std::out_of_range`
(magnitude above `ULLONG_MAX`); a `'-'` sign negates modulo `2^64`. -/
def stoull (s : Str) : Option Nat :=
  match s.dropWhile isSpaceC with
  | [] => none
  | c :: r =>
    let s2 := if c = '-' || c = '+' then r else c :: r
    let ds := s2.takeWhile Char.isDigit
    if ds = [] then none
    else
      let n := digitsToNat ds
      if n < 2 ^ 64 then
        some (if c = '-' then (2 ^ 64 - n % 2 ^ 64) % 2 ^ 64 else n)
      else none

/-- Builds a store by applying `g_config_data[section][key] = value` for
each record in order — the store-insertion semantics shared by the
`ini_parse` handler (src/ConfigSynchronizer.cpp:269-273) and by decoding
into a fresh store. -/
def buildStore (rs : List (Str × Str × Str)) : Store :=
  rs.foldl (fun st r => set_config_value st r.1 r.2.1 r.2.2) []

/-- Decoding one fully delivered buffer, as `handle_client_connection` does
when the whole frame arrives in the first `recv` and the connection then
closes: split at the first newline; with no newline the whole buffer is the
legacy body; otherwise parse the prefix with `std::stoull` — on failure the
message is discarded (`none`), on success everything after the newline is
the body (no further reads are needed for a fully delivered buffer). The
decoded mapping is the store built from the parsed records. -/
def decode (buf : Str) : Option Store :=
  match breakAt '\n' buf with
  | none => some (buildStore (parseRecords buf))
  | some p =>
    match stoull p.1 with
    | none => none
    | some _ => some (buildStore (parseRecords p.2))

/-! ## The inbound connection handler

`handle_client_connection` (src/ConfigSynchronizer.cpp:355-398) is embedded
over the list of chunks that successive successful `recv` calls return;
the end of the list is connection close (`recv <= 0`). Each received chunk
is null-terminated and read back with `std::string(recv_buf.data())`,
which truncates at an embedded NUL byte (`cstr`). -/

/-- `std::string(buf.data())`: the C string up to the first NUL byte. -/
def cstr (s : Str) : Str := s.takeWhile (fun c => !(c.toNat = 0))

/-- The `while (received_data.length() < expected_length)` receive loop
(src/ConfigSynchronizer.cpp:380-387): append chunks until enough bytes have
accumulated or the connection closes (chunk list exhausted). -/
def recvLoop (acc : Str) (expected : Nat) : List Str → Str
  | [] => acc
  | c :: cs =>
    if acc.length < expected then recvLoop (acc ++ cstr c) expected cs else acc

/-- `ConfigSynchronizer::handle_client_connection`
(src/ConfigSynchronizer.cpp:355-398), returning the store after the
connection is handled starting from store `st`. An empty chunk list means
the very first `recv` reported close/error, so nothing happens. -/
def handle_client_connection (st : Store) (chunks : List Str) : Store :=
  match chunks with
  | [] => st
  | c :: rest =>
    match breakAt '\n' (cstr c) with
    | none =>
      -- old format, no length header: the whole buffer is the body
      if cstr c = [] then st else (update_config_from_string st (cstr c)).1
    | some p =>
      match stoull p.1 with
      | none => st   -- std::stoull threw: parse error, message discarded
      | some expected =>
        if recvLoop p.2 expected rest = [] then st
        else (update_config_from_string st (recvLoop p.2 expected rest)).1

/-- `ConfigSynchronizer::load_config` (src/ConfigSynchronizer.cpp:92-103):
takes the lock, clears `g_config_data`, then runs `ini_parse`, whose
handler inserts each parsed record. The external loader's outcome is a
parameter: `none` embeds `ini_parse(...) < 0` (file unreadable — the
function returns `false` with the store already cleared), `some rs` embeds
a successful parse delivering the handler calls `rs` in file order. -/
def load_config (_st : Store) (loaded : Option (List (Str × Str × Str))) :
    Store × Bool :=
  match loaded with
  | none => ([], false)
  | some rs => (buildStore rs, true)

/-! ## Parsing lemmas -/

theorem splitLines_append : ∀ (l rest : Str), '\n' ∉ l →
    splitLines (l ++ '\n' :: rest) = l :: splitLines rest
  | [], rest, _ => by simp [splitLines]
  | c :: l', rest, hnl => by
    have hc : ¬(c = '\n') := fun h => hnl (h ▸ List.mem_cons_self _ _)
    have ih := splitLines_append l' rest (fun h => hnl (List.mem_cons_of_mem _ h))
    simp [splitLines, hc, ih]

theorem splitLines_flatMap : ∀ (ls : List Str), (∀ l ∈ ls, '\n' ∉ l) →
    splitLines (ls.flatMap (fun l => l ++ ['\n'])) = ls
  | [], _ => rfl
  | l :: ls', hnl => by
    rw [List.flatMap_cons, List.append_assoc, List.singleton_append,
      splitLines_append l _ (hnl l (List.mem_cons_self _ _)),
      splitLines_flatMap ls' (fun x hx => hnl x (List.mem_cons_of_mem _ hx))]

theorem breakAt_append : ∀ (u : Str) (c : Char) (rest : Str), c ∉ u →
    breakAt c (u ++ c :: rest) = some (u, rest)
  | [], c, rest, _ => by simp [breakAt]
  | x :: u', c, rest, hc => by
    have hx : ¬(x = c) := fun h => hc (h ▸ List.mem_cons_self _ _)
    simp [breakAt, hx, breakAt_append u' c rest (fun h => hc (List.mem_cons_of_mem _ h))]

theorem breakAt_none : ∀ (u : Str) (c : Char), c ∉ u → breakAt c u = none
  | [], _, _ => rfl
  | x :: u', c, hc => by
    have hx : ¬(x = c) := fun h => hc (h ▸ List.mem_cons_self _ _)
    simp [breakAt, hx, breakAt_none u' c (fun h => hc (List.mem_cons_of_mem _ h))]

theorem find_last_not_of_none_iff : ∀ v : Str,
    find_last_not_of v = none ↔ v.all isValWS = true
  | [] => by simp [find_last_not_of]
  | c :: cs => by
    simp only [find_last_not_of, List.all_cons, Bool.and_eq_true]
    cases h : find_last_not_of cs with
    | some i => simp [(find_last_not_of_none_iff cs).not.mp (by simp [h]), h]
    | none =>
      by_cases hw : isValWS c = true
      · simp [hw, (find_last_not_of_none_iff cs).mp h]
      · simp [hw]

theorem find_last_not_of_append : ∀ (u : Str) (c : Char) (w : Str),
    isValWS c = false → w.all isValWS = true →
    find_last_not_of (u ++ c :: w) = some u.length
  | [], c, w, hc, hw => by
    simp only [List.nil_append, find_last_not_of,
      (find_last_not_of_none_iff w).mpr hw, hc]
    rfl
  | a :: u', c, w, hc, hw => by
    simp [find_last_not_of, find_last_not_of_append u' c w hc hw]

/-- The value trim keeps exactly the prefix ending at the last
non-whitespace character: embedded whitespace survives, the trailing run
is removed. -/
theorem trimValue_append (u : Str) (c : Char) (w : Str)
    (hc : isValWS c = false) (hw : w.all isValWS = true) :
    trimValue (u ++ c :: w) = u ++ [c] := by
  unfold trimValue
  rw [find_last_not_of_append u c w hc hw]
  show List.take (u.length + 1) (u ++ c :: w) = u ++ [c]
  rw [List.take_append]
  simp

/-- An all-whitespace value is trimmed to the empty string
(`find_last_not_of` returns `npos` and `npos + 1 == 0`). -/
theorem trimValue_all_ws (w : Str) (hw : w.all isValWS = true) :
    trimValue w = [] := by
  unfold trimValue
  rw [(find_last_not_of_none_iff w).mpr hw]

/-- `true` iff the value ends in no whitespace character (then trimming is
the identity). -/
def noTrailWS (v : Str) : Bool :=
  match v.getLast? with
  | none => true
  | some c => !isValWS c

theorem trimValue_of_noTrailWS (v : Str) (h : noTrailWS v = true) :
    trimValue v = v := by
  cases hv : v.getLast? with
  | none =>
    rw [List.getLast?_eq_none_iff.mp hv]
    rfl
  | some c =>
    have hne : v ≠ [] := by
      intro he; rw [he] at hv; exact Option.noConfusion hv
    have hdecomp : v.dropLast ++ [c] = v := by
      have := List.dropLast_append_getLast hne
      rwa [List.getLast_eq_iff_getLast?_eq_some hne |>.mpr hv] at this
    have hc : isValWS c = false := by
      unfold noTrailWS at h
      rw [hv] at h
      simpa using h
    rw [← hdecomp]
    exact trimValue_append v.dropLast c [] hc rfl

/-- Parsing a well-formed record line recovers the section, the key, and
the trimmed value. -/
theorem parseLine_lineOf (s k v : Str) (hs : ']' ∉ s) (hk : '=' ∉ k) :
    parseLine (lineOf s k v) = some (s, k, trimValue v) := by
  unfold lineOf parseLine
  rw [show ('[' :: (s ++ ']' :: (k ++ '=' :: v)) : Str) = '[' :: (s ++ ']' :: (k ++ '=' :: v))
    from rfl]
  simp only [breakAt_append s ']' (k ++ '=' :: v) hs, breakAt_append k '=' v hk]

/-! ## Decimal header lemmas -/

theorem natDecAux_spec : ∀ (n fuel : Nat) (acc : Str), n < fuel →
    natDecAux fuel n acc = natDec n ++ acc := by
  intro n
  induction n using Nat.strong_induction_on with
  | _ n ih =>
    intro fuel acc h
    cases fuel with
    | zero => omega
    | succ f =>
      by_cases h10 : n < 10
      · simp [natDecAux, h10, natDec]
      · have hdiv : n / 10 < n := Nat.div_lt_self (by omega) (by omega)
        have hstep : ∀ (g : Nat) (ac : Str), n < g + 1 →
            natDecAux (g + 1) n ac = natDec (n / 10) ++ ((n % 10).digitChar :: ac) := by
          intro g ac hg
          rw [show natDecAux (g + 1) n ac =
              natDecAux g (n / 10) ((n % 10).digitChar :: ac) from by
            simp [natDecAux, h10]]
          exact ih (n / 10) hdiv g _ (by omega)
        rw [hstep f acc h]
        rw [show natDec n = natDecAux (n + 1) n [] from rfl]
        cases n with
        | zero => omega
        | succ m =>
          rw [hstep (m + 1) [] (by omega)]
          simp

theorem natDec_lt10 (n : Nat) (h : n < 10) : natDec n = [n.digitChar] := by
  simp [natDec, natDecAux, h, Nat.mod_eq_of_lt h]

theorem natDec_ge10 (n : Nat) (h : 10 ≤ n) :
    natDec n = natDec (n / 10) ++ [(n % 10).digitChar] := by
  have h10 : ¬ n < 10 := by omega
  rw [show natDec n = natDecAux (n + 1) n [] from rfl]
  rw [show natDecAux (n + 1) n [] = natDecAux n (n / 10) [(n % 10).digitChar] from by
    cases n with
    | zero => omega
    | succ m => simp [natDecAux, h10]]
  exact natDecAux_spec (n / 10) n _ (by
    have := Nat.div_lt_self (show 0 < n by omega) (show 1 < 10 by omega)
    omega)

theorem digitChar_isDigit (n : Nat) (h : n < 10) : (n.digitChar).isDigit = true := by
  interval_cases n <;> decide

theorem digitChar_toNat (n : Nat) (h : n < 10) : (n.digitChar).toNat = 48 + n := by
  interval_cases n <;> decide

theorem natDec_digits : ∀ n : Nat, (natDec n).all Char.isDigit = true := by
  intro n
  induction n using Nat.strong_induction_on with
  | _ n ih =>
    by_cases h : n < 10
    · rw [natDec_lt10 n h]
      simp [digitChar_isDigit n h]
    · rw [natDec_ge10 n (by omega)]
      rw [List.all_append, Bool.and_eq_true]
      refine ⟨?_, ?_⟩
      · exact ih (n / 10) (Nat.div_lt_self (by omega) (by omega))
      · simp [digitChar_isDigit (n % 10) (Nat.mod_lt _ (by omega))]

theorem natDec_ne_nil : ∀ n : Nat, natDec n ≠ [] := by
  intro n
  by_cases h : n < 10
  · rw [natDec_lt10 n h]; simp
  · rw [natDec_ge10 n (by omega)]; simp

theorem digitsToNat_append_digit (ds : Str) (c : Char) :
    digitsToNat (ds ++ [c]) = 10 * digitsToNat ds + dval c := by
  unfold digitsToNat
  rw [List.foldl_append]
  simp [Nat.mul_comm]

theorem digitsToNat_natDec : ∀ n : Nat, digitsToNat (natDec n) = n := by
  intro n
  induction n using Nat.strong_induction_on with
  | _ n ih =>
    by_cases h : n < 10
    · rw [natDec_lt10 n h]
      simp [digitsToNat, dval, digitChar_toNat n h]
    · rw [natDec_ge10 n (by omega), digitsToNat_append_digit,
        ih (n / 10) (Nat.div_lt_self (by omega) (by omega))]
      rw [show dval ((n % 10).digitChar) = n % 10 from by
        rw [dval, digitChar_toNat (n % 10) (Nat.mod_lt _ (by omega))]; omega]
      omega

theorem isDigit_bounds {c : Char} (h : c.isDigit = true) :
    48 ≤ c.toNat ∧ c.toNat ≤ 57 := by
  simp only [Char.isDigit, Bool.and_eq_true, decide_eq_true_eq] at h
  obtain ⟨h1, h2⟩ := h
  exact ⟨h1, h2⟩

theorem isSpaceC_eq_false_of_digit {c : Char} (h : c.isDigit = true) :
    isSpaceC c = false := by
  obtain ⟨h1, h2⟩ := isDigit_bounds h
  simp only [isSpaceC, Bool.or_eq_false_iff, decide_eq_false_iff_not]
  omega

theorem takeWhile_eq_of_all {p : Char → Bool} : ∀ l : Str, l.all p = true →
    l.takeWhile p = l
  | [], _ => rfl
  | c :: r, h => by
    rw [List.all_cons, Bool.and_eq_true] at h
    simp [List.takeWhile_cons, h.1, takeWhile_eq_of_all r h.2]

/-- `std::stoull` applied to the decimal header `serialize_config` writes
parses back exactly the body length (no whitespace, no sign, all digits). -/
theorem stoull_natDec (n : Nat) (h : n < 2 ^ 64) : stoull (natDec n) = some n := by
  have hall := natDec_digits n
  cases hnd : natDec n with
  | nil => exact absurd hnd (natDec_ne_nil n)
  | cons c r =>
    rw [hnd] at hall
    have hcdig : c.isDigit = true := by
      rw [List.all_cons, Bool.and_eq_true] at hall
      exact hall.1
    have hsp : isSpaceC c = false := isSpaceC_eq_false_of_digit hcdig
    obtain ⟨h1, h2⟩ := isDigit_bounds hcdig
    have hcm : ¬(c = '-') := fun he => by rw [he] at h1; simp at h1
    have hcp : ¬(c = '+') := fun he => by rw [he] at h1; simp at h1
    have hdrop : (c :: r).dropWhile isSpaceC = c :: r := by
      simp [List.dropWhile_cons, hsp]
    have htake : (c :: r).takeWhile Char.isDigit = c :: r := takeWhile_eq_of_all _ hall
    have hval : digitsToNat (c :: r) = n := by rw [← hnd]; exact digitsToNat_natDec n
    unfold stoull
    rw [hdrop]
    simp [hcm, hcp, htake, hval, h]
    omega

/-! ## Rebuilding a store from its own records -/

/-- Folding record insertions from an arbitrary starting store. -/
def setFold (acc : Store) (rs : List (Str × Str × Str)) : Store :=
  rs.foldl (fun st r => set_config_value st r.1 r.2.1 r.2.2) acc

theorem buildStore_eq_setFold (rs : List (Str × Str × Str)) :
    buildStore rs = setFold [] rs := rfl

theorem insKey_append : ∀ (done : KeyMap) (k v : Str),
    (∀ q ∈ done, strLt q.1 k = true) → insKey done k v = done ++ [(k, v)]
  | [], _, _, _ => rfl
  | q :: rest, k, v, hall => by
    have hq : strLt q.1 k = true := hall q (List.mem_cons_self _ _)
    rw [show insKey (q :: rest) k v = q :: insKey rest k v from by
      simp [insKey, strLt_asymm _ _ hq, hq]]
    rw [insKey_append rest k v (fun x hx => hall x (List.mem_cons_of_mem _ hx))]
    rfl

theorem set_append_new : ∀ (acc : Store) (s k v : Str),
    (∀ p ∈ acc, strLt p.1 s = true) →
    set_config_value acc s k v = acc ++ [(s, [(k, v)])]
  | [], _, _, _, _ => rfl
  | p :: acc', s, k, v, hall => by
    have hp : strLt p.1 s = true := hall p (List.mem_cons_self _ _)
    rw [show set_config_value (p :: acc') s k v = p :: set_config_value acc' s k v from by
      simp [set_config_value, strLt_asymm _ _ hp, hp]]
    rw [set_append_new acc' s k v (fun x hx => hall x (List.mem_cons_of_mem _ hx))]
    rfl

theorem set_append_existing : ∀ (acc : Store) (s : Str) (done : KeyMap) (k v : Str),
    (∀ p ∈ acc, strLt p.1 s = true) →
    set_config_value (acc ++ [(s, done)]) s k v = acc ++ [(s, insKey done k v)]
  | [], s, done, k, v, _ => by
    simp [set_config_value, strLt_irrefl]
  | p :: acc', s, done, k, v, hall => by
    have hp : strLt p.1 s = true := hall p (List.mem_cons_self _ _)
    rw [show set_config_value ((p :: acc') ++ [(s, done)]) s k v =
        p :: set_config_value (acc' ++ [(s, done)]) s k v from by
      simp [set_config_value, strLt_asymm _ _ hp, hp]]
    rw [set_append_existing acc' s done k v (fun x hx => hall x (List.mem_cons_of_mem _ hx))]
    rfl

theorem setFold_keys : ∀ (kvs : List (Str × Str)) (acc : Store) (s : Str) (done : KeyMap),
    (∀ p ∈ acc, strLt p.1 s = true) →
    (∀ q ∈ done, ∀ q' ∈ kvs, strLt q.1 q'.1 = true) →
    kvs.Pairwise (fun a b => strLt a.1 b.1 = true) →
    setFold (acc ++ [(s, done)]) (kvs.map (fun q => (s, q.1, q.2))) =
      acc ++ [(s, done ++ kvs)]
  | [], acc, s, done, _, _, _ => by simp [setFold]
  | (k, v) :: kvrest, acc, s, done, hacc, hdone, hpw => by
    obtain ⟨hhd, hpwrest⟩ := List.pairwise_cons.mp hpw
    rw [List.map_cons]
    rw [show setFold (acc ++ [(s, done)]) ((s, k, v) :: kvrest.map (fun q => (s, q.1, q.2))) =
        setFold (set_config_value (acc ++ [(s, done)]) s k v)
          (kvrest.map (fun q => (s, q.1, q.2))) from rfl]
    rw [set_append_existing acc s done k v hacc]
    rw [insKey_append done k v
      (fun q hq => hdone q hq (k, v) (List.mem_cons_self _ _))]
    rw [setFold_keys kvrest acc s (done ++ [(k, v)]) hacc
      (by
        intro q hq q' hq'
        rcases List.mem_append.mp hq with hm | hm
        · exact hdone q hm q' (List.mem_cons_of_mem _ hq')
        · rw [List.mem_singleton.mp hm]
          exact hhd q' hq')
      hpwrest]
    simp

theorem setFold_records : ∀ (st : Store) (acc : Store),
    Canon st → (∀ p ∈ st, p.2 ≠ []) →
    (∀ p ∈ acc, ∀ q ∈ st, strLt p.1 q.1 = true) →
    setFold acc (recordsOf st) = acc ++ st
  | [], acc, _, _, _ => by simp [setFold, recordsOf]
  | (s, []) :: rest, _, _, hne, _ =>
    absurd rfl (hne (s, []) (List.mem_cons_self _ _))
  | (s, q0 :: kvrest) :: rest, acc, hc, hne, hacc => by
    obtain ⟨hpw, hin⟩ := hc
    obtain ⟨hhd, hpwrest⟩ := List.pairwise_cons.mp hpw
    have hcrest : Canon rest := ⟨hpwrest, fun q hq => hin q (List.mem_cons_of_mem _ hq)⟩
    have hkvpw := hin (s, q0 :: kvrest) (List.mem_cons_self _ _)
    obtain ⟨hq0, hkvrestpw⟩ := List.pairwise_cons.mp hkvpw
    rw [show recordsOf ((s, q0 :: kvrest) :: rest) =
        (q0 :: kvrest).map (fun q => (s, q.1, q.2)) ++ recordsOf rest from by
      simp [recordsOf]]
    rw [setFold, List.foldl_append, ← setFold, ← setFold]
    rw [List.map_cons]
    rw [show setFold acc ((s, q0.1, q0.2) :: kvrest.map (fun q => (s, q.1, q.2))) =
        setFold (set_config_value acc s q0.1 q0.2)
          (kvrest.map (fun q => (s, q.1, q.2))) from rfl]
    rw [set_append_new acc s q0.1 q0.2
      (fun p hp => hacc p hp (s, q0 :: kvrest) (List.mem_cons_self _ _))]
    rw [show (acc ++ [(s, [(q0.1, q0.2)])] : Store) = acc ++ [(s, [q0])] from by simp]
    rw [setFold_keys kvrest acc s [q0]
      (fun p hp => hacc p hp (s, q0 :: kvrest) (List.mem_cons_self _ _))
      (by
        intro q hq q' hq'
        rw [List.mem_singleton.mp hq]
        exact hq0 q' hq')
      hkvrestpw]
    rw [show ([q0] ++ kvrest : KeyMap) = q0 :: kvrest from rfl]
    rw [setFold_records rest (acc ++ [(s, q0 :: kvrest)]) hcrest
      (fun p hp => hne p (List.mem_cons_of_mem _ hp))
      (by
        intro p hp q hq
        rcases List.mem_append.mp hp with hm | hm
        · exact hacc p hm q (List.mem_cons_of_mem _ hq)
        · rw [List.mem_singleton.mp hm]
          exact hhd q hq)]
    simp

/-- Inserting a canonical store's records, in serialization order, into an
empty store rebuilds exactly that store. -/
theorem buildStore_recordsOf (st : Store) (hc : Canon st)
    (hne : ∀ p ∈ st, p.2 ≠ []) : buildStore (recordsOf st) = st := by
  rw [buildStore_eq_setFold, setFold_records st [] hc hne (by simp)]
  rfl

/-! ## Round-trip assembly -/

/-- The character exclusions the specification places on section and key
names: none of `'['`, `']'`, `'='`. -/
def okNameOrig (x : Str) : Bool := x.all (fun c => !(c = '[' || c = ']' || c = '='))

/-- No newline byte (required for a string to survive line splitting). -/
def noNewline (x : Str) : Bool := x.all (fun c => !(c = '\n'))

/-- A value that survives decoding unchanged: no embedded newline and no
trailing whitespace. -/
def okVal (v : Str) : Bool := noNewline v && noTrailWS v

/-- Every section name and key name is free of `'['`, `']'`, `'='` and
newline, and every value is an `okVal`. -/
def CleanStore (st : Store) : Prop :=
  ∀ p ∈ st, (okNameOrig p.1 && noNewline p.1) = true ∧
    ∀ q ∈ p.2, (okNameOrig q.1 && noNewline q.1) = true ∧ okVal q.2 = true

theorem not_mem_of_okNameOrig {x : Str} (h : okNameOrig x = true) :
    ']' ∉ x ∧ '=' ∉ x := by
  constructor
  · intro hm
    have := List.all_eq_true.mp h _ hm
    simp at this
  · intro hm
    have := List.all_eq_true.mp h _ hm
    simp at this

theorem not_mem_of_noNewline {x : Str} (h : noNewline x = true) : '\n' ∉ x := by
  intro hm
  have := List.all_eq_true.mp h _ hm
  simp at this

theorem band_true {a b : Bool} (h : (a && b) = true) : a = true ∧ b = true := by
  simp only [Bool.and_eq_true] at h
  exact h

theorem newline_not_mem_lineOf (s k v : Str) (hs : noNewline s = true)
    (hk : noNewline k = true) (hv : noNewline v = true) :
    '\n' ∉ lineOf s k v := by
  intro hmem
  simp only [lineOf, List.mem_cons, List.mem_append] at hmem
  rcases hmem with h | h
  · exact absurd h (by decide)
  rcases h with h | h
  · exact not_mem_of_noNewline hs h
  rcases h with h | h
  · exact absurd h (by decide)
  rcases h with h | h
  · exact not_mem_of_noNewline hk h
  rcases h with h | h
  · exact absurd h (by decide)
  · exact not_mem_of_noNewline hv h

theorem bodyOf_eq : ∀ st : Store,
    bodyOf st = (recordsOf st).flatMap (fun r => lineOf r.1 r.2.1 r.2.2 ++ ['\n'])
  | [] => rfl
  | p :: rest => by
    rw [show bodyOf (p :: rest) =
        p.2.flatMap (fun q => lineOf p.1 q.1 q.2 ++ ['\n']) ++ bodyOf rest from by
      simp [bodyOf]]
    rw [show recordsOf (p :: rest) =
        p.2.map (fun q => (p.1, q.1, q.2)) ++ recordsOf rest from by
      simp [recordsOf]]
    rw [List.flatMap_append, bodyOf_eq rest]
    congr 1
    rw [List.flatMap_map]

theorem filterMap_eq_self_of {α : Type} {f : α → Option α} :
    ∀ l : List α, (∀ x ∈ l, f x = some x) → l.filterMap f = l
  | [], _ => rfl
  | x :: rest, h => by
    rw [List.filterMap_cons, h x (List.mem_cons_self _ _),
      filterMap_eq_self_of rest (fun y hy => h y (List.mem_cons_of_mem _ hy))]

theorem mem_recordsOf {st : Store} {r : Str × Str × Str} (h : r ∈ recordsOf st) :
    ∃ p ∈ st, p.1 = r.1 ∧ (r.2.1, r.2.2) ∈ p.2 := by
  simp only [recordsOf, List.mem_flatMap, List.mem_map] at h
  obtain ⟨p, hp, q, hq, he⟩ := h
  refine ⟨p, hp, ?_, ?_⟩
  · rw [← he]
  · rw [← he]
    exact hq

/-- Parsing the serialized body of a clean store yields back exactly its
records. -/
theorem parseRecords_bodyOf (st : Store) (hcl : CleanStore st) :
    parseRecords (bodyOf st) = recordsOf st := by
  have hclean : ∀ r ∈ recordsOf st,
      (okNameOrig r.1 && noNewline r.1) = true ∧
      (okNameOrig r.2.1 && noNewline r.2.1) = true ∧ okVal r.2.2 = true := by
    intro r hr
    obtain ⟨p, hp, he, hq⟩ := mem_recordsOf hr
    obtain ⟨hname, hkeys⟩ := hcl p hp
    obtain ⟨hkey, hval⟩ := hkeys (r.2.1, r.2.2) hq
    exact ⟨he ▸ hname, hkey, hval⟩
  unfold parseRecords
  rw [bodyOf_eq st]
  rw [show ((recordsOf st).flatMap (fun r => lineOf r.1 r.2.1 r.2.2 ++ ['\n'])) =
      (((recordsOf st).map (fun r => lineOf r.1 r.2.1 r.2.2)).flatMap
        (fun l => l ++ ['\n'])) from by rw [List.flatMap_map]]
  rw [splitLines_flatMap _ (by
    intro l hl
    obtain ⟨r, hr, he⟩ := List.mem_map.mp hl
    obtain ⟨hn1, hn2, hn3⟩ := hclean r hr
    rw [← he]
    exact newline_not_mem_lineOf _ _ _ (band_true hn1).2
      (band_true hn2).2 (band_true hn3).1)]
  rw [List.filterMap_map]
  apply filterMap_eq_self_of
  intro r hr
  obtain ⟨hn1, hn2, hn3⟩ := hclean r hr
  show parseLine (lineOf r.1 r.2.1 r.2.2) = some r
  rw [parseLine_lineOf r.1 r.2.1 r.2.2
    (not_mem_of_okNameOrig (band_true hn1).1).1
    (not_mem_of_okNameOrig (band_true hn2).1).2]
  rw [trimValue_of_noTrailWS r.2.2 (band_true hn3).2]

theorem newline_not_mem_natDec (n : Nat) : '\n' ∉ natDec n := by
  intro hm
  have := List.all_eq_true.mp (natDec_digits n) _ hm
  simp at this

/-- Decoding the serialized snapshot of a canonical, clean store (with no
empty sections and a body shorter than `2^64` bytes) reproduces it. -/
theorem decode_serialize (st : Store) (hc : Canon st)
    (hne : ∀ p ∈ st, p.2 ≠ []) (hcl : CleanStore st)
    (hlen : (bodyOf st).length < 2 ^ 64) :
    decode (serialize_config st) = some st := by
  unfold serialize_config decode
  rw [breakAt_append _ '\n' _ (newline_not_mem_natDec _)]
  simp only [stoull_natDec _ hlen, parseRecords_bodyOf st hcl]
  rw [buildStore_recordsOf st hc hne]

instance (st : Store) : Decidable (Canon st) := by
  unfold Canon
  infer_instance

instance (st : Store) : Decidable (CleanStore st) := by
  unfold CleanStore
  infer_instance

theorem cstr_eq_self {s : Str} (h : ∀ c ∈ s, c.toNat ≠ 0) : cstr s = s := by
  unfold cstr
  apply takeWhile_eq_of_all
  rw [List.all_eq_true]
  intro c hc
  simpa using h c hc

/-- After a merge step for record `r` with a nonempty value, the store holds
exactly `r`'s value at `r`'s key (whether or not the step wrote). -/
theorem lookupVal_mergeStep_self (p : Store × Bool) (r : Str × Str × Str)
    (hv : r.2.2 ≠ []) : lookupVal (mergeStep p r).1 r.1 r.2.1 = some r.2.2 := by
  unfold mergeStep
  by_cases h : get_config_value p.1 r.1 r.2.1 [] = r.2.2
  · have hl : lookupVal p.1 r.1 r.2.1 = some r.2.2 := by
      unfold get_config_value at h
      cases hlk : lookupVal p.1 r.1 r.2.1 with
      | none =>
        rw [hlk] at h
        exact absurd h.symm (by simpa using hv)
      | some w =>
        rw [hlk] at h
        rw [show w = r.2.2 from h]
    simpa [h] using hl
  · simp only [h, if_false]
    exact lookupVal_set_self p.1 r.1 r.2.1 r.2.2

/-! ## The claims -/

/-- Claim C4, counterexample: when the external loader fails, the store is
not left unchanged — `load_config` cleared it before invoking the loader,
so a previously nonempty store comes out empty. -/
theorem claim_C4_counterexample :
    (load_config [(chars "A", [(chars "x", chars "1")])] none).1 ≠
      [(chars "A", [(chars "x", chars "1")])] ∧
    (load_config [(chars "A", [(chars "x", chars "1")])] none).1 = [] := by
  decide

/-- Claim C4, amended: `load_config` clears the store first, so on loader
failure the store is left cleared (empty), independent of its previous
contents; on success it holds exactly the loaded records. -/
theorem claim_C4_amended (st : Store) (rs : List (Str × Str × Str)) :
    load_config st none = ([], false) ∧
    load_config st (some rs) = (buildStore rs, true) :=
  ⟨rfl, rfl⟩

/-- Claim C5, counterexample: for the decoded record set of the body
`"[A]x=1\n[A]x=2\n"` (a duplicate key with two values), the second
application of the merge reports `changed = true`, not `false` — both as a
record-list fold and as a second `update_config_from_string` call, which
therefore triggers persistence again. -/
theorem claim_C5_counterexample :
    parseRecords (chars "[A]x=1\n[A]x=2\n") =
      [(chars "A", chars "x", chars "1"), (chars "A", chars "x", chars "2")] ∧
    (mergeFold ((mergeFold ([], false)
        (parseRecords (chars "[A]x=1\n[A]x=2\n"))).1, false)
      (parseRecords (chars "[A]x=1\n[A]x=2\n"))).2 = true ∧
    (update_config_from_string
      (update_config_from_string [] (chars "[A]x=1\n[A]x=2\n")).1
      (chars "[A]x=1\n[A]x=2\n")).2 = true := by
  decide

/-- Claim C5, amended: for a decoded record set in which each
`(section, key)` pair occurs at most once, merging it a second time leaves
the store exactly as after the first merge and reports `changed = false`
(so persistence is not triggered). -/
theorem claim_C5_amended (st : Store) (rs : List (Str × Str × Str))
    (hc : Canon st) (hnd : (rs.map (fun r => (r.1, r.2.1))).Nodup) :
    mergeFold ((mergeFold (st, false) rs).1, false) rs =
      ((mergeFold (st, false) rs).1, false) :=
  mergeFold_nop rs (mergeFold (st, false) rs).1 false
    (get_mergeFold_eq rs (st, false) hc hnd)

/-- Witness for C5: a concrete canonical store and duplicate-free record
set satisfying the hypotheses, with the idempotence conclusion. -/
theorem claim_C5_witness :
    Canon [(chars "B", [(chars "y", chars "0")])] ∧
    (([(chars "A", chars "x", chars "1"), (chars "A", chars "z", chars "2")].map
      (fun r => (r.1, r.2.1))).Nodup) ∧
    mergeFold ((mergeFold ([(chars "B", [(chars "y", chars "0")])], false)
        [(chars "A", chars "x", chars "1"), (chars "A", chars "z", chars "2")]).1, false)
      [(chars "A", chars "x", chars "1"), (chars "A", chars "z", chars "2")] =
      ((mergeFold ([(chars "B", [(chars "y", chars "0")])], false)
        [(chars "A", chars "x", chars "1"), (chars "A", chars "z", chars "2")]).1, false) :=
  ⟨by decide, by decide,
   claim_C5_amended [(chars "B", [(chars "y", chars "0")])]
     [(chars "A", chars "x", chars "1"), (chars "A", chars "z", chars "2")]
     (by decide) (by decide)⟩

/-- Claim C6: merging `[A]x=1` then `[A]x=2` — in one body or in two
successive bodies — leaves `get(A, x)` equal to `"2"` for every starting
store and every default: the later write wins at per-key granularity. -/
theorem claim_C6_last_write_wins (st : Store) (d : Str) :
    get_config_value (update_config_from_string
        (update_config_from_string st (chars "[A]x=1\n")).1
        (chars "[A]x=2\n")).1 (chars "A") (chars "x") d = chars "2" ∧
    get_config_value (update_config_from_string st
        (chars "[A]x=1\n[A]x=2\n")).1 (chars "A") (chars "x") d = chars "2" := by
  have h2 : parseRecords (chars "[A]x=2\n") = [(chars "A", chars "x", chars "2")] := by
    decide
  have h12 : parseRecords (chars "[A]x=1\n[A]x=2\n") =
      [(chars "A", chars "x", chars "1"), (chars "A", chars "x", chars "2")] := by
    decide
  constructor
  · rw [update_eq_mergeFold ((update_config_from_string st (chars "[A]x=1\n")).1), h2]
    rw [show mergeFold ((update_config_from_string st (chars "[A]x=1\n")).1, false)
        [(chars "A", chars "x", chars "2")] =
        mergeStep ((update_config_from_string st (chars "[A]x=1\n")).1, false)
          (chars "A", chars "x", chars "2") from rfl]
    unfold get_config_value
    rw [lookupVal_mergeStep_self _ (chars "A", chars "x", chars "2") (by decide)]
    rfl
  · rw [update_eq_mergeFold, h12]
    rw [show mergeFold (st, false)
        [(chars "A", chars "x", chars "1"), (chars "A", chars "x", chars "2")] =
        mergeStep (mergeStep (st, false) (chars "A", chars "x", chars "1"))
          (chars "A", chars "x", chars "2") from rfl]
    unfold get_config_value
    rw [lookupVal_mergeStep_self _ (chars "A", chars "x", chars "2") (by decide)]
    rfl

/-- Claim C7: `serialize_config` produces the decimal byte length of the
body, one newline, then the body (the concatenated record lines); for the
store `{CONFIG_SYNC: {WPF_HOST: 127.0.0.1, WPF_RECV_PORT: 12347}}` it
yields exactly the 65-byte example frame, and decoding that exact byte
sequence reproduces the mapping. -/
theorem claim_C7_serialize (st : Store) :
    serialize_config st = natDec (bodyOf st).length ++ '\n' :: bodyOf st ∧
    serialize_config [(chars "CONFIG_SYNC",
        [(chars "WPF_HOST", chars "127.0.0.1"),
         (chars "WPF_RECV_PORT", chars "12347")])] =
      chars "65\n[CONFIG_SYNC]WPF_HOST=127.0.0.1\n[CONFIG_SYNC]WPF_RECV_PORT=12347\n" ∧
    decode (chars "65\n[CONFIG_SYNC]WPF_HOST=127.0.0.1\n[CONFIG_SYNC]WPF_RECV_PORT=12347\n") =
      some [(chars "CONFIG_SYNC",
        [(chars "WPF_HOST", chars "127.0.0.1"),
         (chars "WPF_RECV_PORT", chars "12347")])] :=
  ⟨rfl, by decide, by decide⟩

/-- Claim C8: lines that do not match a record are silently ignored — the
update equals the merge fold over exactly the well-formed records of the
body — and a body consisting only of malformed lines leaves the store
unchanged and reports no change. -/
theorem claim_C8_malformed_ignored (st : Store) (data : Str) :
    update_config_from_string st data = mergeFold (st, false) (parseRecords data) ∧
    ((splitLines data).all (fun l => (parseLine l).isNone) = true →
      update_config_from_string st data = (st, false)) := by
  refine ⟨update_eq_mergeFold st data, ?_⟩
  intro hall
  have hnil : parseRecords data = [] := by
    unfold parseRecords
    rw [List.filterMap_eq_nil_iff]
    intro l hl
    have := List.all_eq_true.mp hall l hl
    exact Option.isNone_iff_eq_none.mp this
  rw [update_eq_mergeFold, hnil]
  rfl

/-- Witness for C8: a body of only malformed lines (empty line, no leading
`'['`, missing `']'`, missing `'='`) leaves a nonempty store untouched. -/
theorem claim_C8_witness :
    (splitLines (chars "garbage\n\nnope=5\n[broken\n[a]b\n")).all
      (fun l => (parseLine l).isNone) = true ∧
    update_config_from_string [(chars "A", [(chars "x", chars "1")])]
      (chars "garbage\n\nnope=5\n[broken\n[a]b\n") =
      ([(chars "A", [(chars "x", chars "1")])], false) :=
  ⟨by decide,
   (claim_C8_malformed_ignored [(chars "A", [(chars "x", chars "1")])]
     (chars "garbage\n\nnope=5\n[broken\n[a]b\n")).2 (by decide)⟩

/-- Claim C9: decoding strips exactly the trailing run of space, newline,
carriage-return and tab from a record value — the same characters embedded
before the last non-whitespace character survive — an all-whitespace value
trims to the empty string, and the record parser returns precisely the
trimmed value. -/
theorem claim_C9_trim (u w s k : Str) (c : Char) (hc : isValWS c = false)
    (hw : w.all isValWS = true) (hs : ']' ∉ s) (hk : '=' ∉ k) :
    trimValue (u ++ c :: w) = u ++ [c] ∧ trimValue w = [] ∧
    parseLine (lineOf s k (u ++ c :: w)) = some (s, k, u ++ [c]) :=
  ⟨trimValue_append u c w hc hw, trimValue_all_ws w hw, by
    rw [parseLine_lineOf s k _ hs hk, trimValue_append u c w hc hw]⟩

/-- Witness for C9: the value `"a b" ++ "c" ++ " \n\t"` keeps its embedded
blank and loses exactly its trailing run. -/
theorem claim_C9_witness :
    isValWS 'c' = false ∧ (chars " \n\t").all isValWS = true ∧
    (trimValue (chars "a b" ++ 'c' :: chars " \n\t") = chars "a b" ++ ['c'] ∧
     trimValue (chars " \n\t") = [] ∧
     parseLine (lineOf (chars "A") (chars "x") (chars "a b" ++ 'c' :: chars " \n\t")) =
       some (chars "A", chars "x", chars "a b" ++ ['c'])) :=
  ⟨by decide, by decide,
   claim_C9_trim (chars "a b") (chars " \n\t") (chars "A") (chars "x") 'c'
     (by decide) (by decide) (by decide) (by decide)⟩

/-- Claim C10: merging a body modifies only the `(section, key)` pairs that
appear in its well-formed records — any other pair keeps exactly its
previous value (including absence), and any section mentioned by no record
is neither created, removed nor changed. -/
theorem claim_C10_frame (st : Store) (data : Str) (s k : Str) (hc : Canon st) :
    ((∀ r ∈ parseRecords data, ¬(s = r.1 ∧ k = r.2.1)) →
      lookupVal (update_config_from_string st data).1 s k = lookupVal st s k) ∧
    ((∀ r ∈ parseRecords data, s ≠ r.1) →
      lookupSec (update_config_from_string st data).1 s = lookupSec st s) := by
  constructor
  · intro hno
    rw [update_eq_mergeFold]
    exact lookupVal_mergeFold_ne (parseRecords data) (st, false) s k hc hno
  · intro hno
    rw [update_eq_mergeFold]
    exact lookupSec_mergeFold_ne (parseRecords data) (st, false) s hno

/-- Witness for C10: merging `[A]x=9` into a two-section store leaves the
untouched pair `(B, y)` and the whole section `B` exactly as before. -/
theorem claim_C10_witness :
    Canon [(chars "A", [(chars "x", chars "1")]), (chars "B", [(chars "y", chars "2")])] ∧
    (∀ r ∈ parseRecords (chars "[A]x=9\n"), ¬(chars "B" = r.1 ∧ chars "y" = r.2.1)) ∧
    (∀ r ∈ parseRecords (chars "[A]x=9\n"), chars "B" ≠ r.1) ∧
    lookupVal (update_config_from_string
        [(chars "A", [(chars "x", chars "1")]), (chars "B", [(chars "y", chars "2")])]
        (chars "[A]x=9\n")).1 (chars "B") (chars "y") =
      lookupVal [(chars "A", [(chars "x", chars "1")]), (chars "B", [(chars "y", chars "2")])]
        (chars "B") (chars "y") ∧
    lookupSec (update_config_from_string
        [(chars "A", [(chars "x", chars "1")]), (chars "B", [(chars "y", chars "2")])]
        (chars "[A]x=9\n")).1 (chars "B") =
      lookupSec [(chars "A", [(chars "x", chars "1")]), (chars "B", [(chars "y", chars "2")])]
        (chars "B") :=
  ⟨by decide, by decide, by decide,
   (claim_C10_frame [(chars "A", [(chars "x", chars "1")]),
       (chars "B", [(chars "y", chars "2")])]
     (chars "[A]x=9\n") (chars "B") (chars "y") (by decide)).1 (by decide),
   (claim_C10_frame [(chars "A", [(chars "x", chars "1")]),
       (chars "B", [(chars "y", chars "2")])]
     (chars "[A]x=9\n") (chars "B") (chars "y") (by decide)).2 (by decide)⟩

/-- Claim C1, counterexample: the store `{A: {k: "1\n2"}}` satisfies every
exclusion the claim states — names free of `'['`, `']'`, `'='`, value with
no trailing whitespace — yet decoding its encoded snapshot does not
reproduce it (the embedded newline splits the record line). -/
theorem claim_C1_counterexample :
    Canon [(chars "A", [(chars "k", chars "1\n2")])] ∧
    okNameOrig (chars "A") = true ∧ okNameOrig (chars "k") = true ∧
    noTrailWS (chars "1\n2") = true ∧
    decode (serialize_config [(chars "A", [(chars "k", chars "1\n2")])]) ≠
      some [(chars "A", [(chars "k", chars "1\n2")])] := by
  decide

/-- Claim C1, amended: for every canonical mapping (no empty sections)
whose section and key names avoid `'['`, `']'`, `'='` and newline, whose
values contain no newline and no trailing whitespace, and whose body is
shorter than `2^64` bytes, parsing the serialized body yields exactly its
records, and decoding the encoded snapshot reproduces the mapping:
`decode (encode m) = m`. -/
theorem claim_C1_roundtrip (m : Store) (hc : Canon m) (hne : ∀ p ∈ m, p.2 ≠ [])
    (hcl : CleanStore m) (hlen : (bodyOf m).length < 2 ^ 64) :
    parseRecords (bodyOf m) = recordsOf m ∧
    decode (serialize_config m) = some m :=
  ⟨parseRecords_bodyOf m hcl, decode_serialize m hc hne hcl hlen⟩

/-- Witness for C1: the round trip on the end-to-end example store. -/
theorem claim_C1_witness :
    Canon [(chars "CONFIG_SYNC",
        [(chars "WPF_HOST", chars "127.0.0.1"),
         (chars "WPF_RECV_PORT", chars "12347")])] ∧
    CleanStore [(chars "CONFIG_SYNC",
        [(chars "WPF_HOST", chars "127.0.0.1"),
         (chars "WPF_RECV_PORT", chars "12347")])] ∧
    (bodyOf [(chars "CONFIG_SYNC",
        [(chars "WPF_HOST", chars "127.0.0.1"),
         (chars "WPF_RECV_PORT", chars "12347")])]).length < 2 ^ 64 ∧
    (parseRecords (bodyOf [(chars "CONFIG_SYNC",
        [(chars "WPF_HOST", chars "127.0.0.1"),
         (chars "WPF_RECV_PORT", chars "12347")])]) =
      recordsOf [(chars "CONFIG_SYNC",
        [(chars "WPF_HOST", chars "127.0.0.1"),
         (chars "WPF_RECV_PORT", chars "12347")])] ∧
     decode (serialize_config [(chars "CONFIG_SYNC",
        [(chars "WPF_HOST", chars "127.0.0.1"),
         (chars "WPF_RECV_PORT", chars "12347")])]) =
      some [(chars "CONFIG_SYNC",
        [(chars "WPF_HOST", chars "127.0.0.1"),
         (chars "WPF_RECV_PORT", chars "12347")])]) :=
  ⟨by decide, by decide, by decide,
   claim_C1_roundtrip _ (by decide) (by decide) (by decide) (by decide)⟩

/-- Claim C2, counterexample: a frame declaring 14 body bytes whose
connection closes after delivering only the 7-byte partial body
`"[A]x=1\n"` is not discarded — the handler merges the partial body and
the store changes. -/
theorem claim_C2_counterexample :
    stoull (chars "14") = some 14 ∧
    (chars "[A]x=1\n").length < 14 ∧
    handle_client_connection [] [chars "14\n[A]x=1\n"] =
      [(chars "A", [(chars "x", chars "1")])] ∧
    handle_client_connection [] [chars "14\n[A]x=1\n"] ≠ [] := by
  decide

/-- Claim C2, amended: when the header declares `expected` bytes, the first
chunk carries the header line plus a partial body `r`, and the peer then
closes before `expected` bytes arrive, the handler does not crash but it
also does not discard the message: it merges the partial body `r` (only a
completely empty partial body leaves the store untouched). -/
theorem claim_C2_truncation (st : Store) (h r : Str) (expected : Nat)
    (hnl : '\n' ∉ h) (hnonul : ∀ c ∈ h ++ '\n' :: r, c.toNat ≠ 0)
    (hstoull : stoull h = some expected) (_hlt : r.length < expected) :
    handle_client_connection st [h ++ '\n' :: r] =
      if r = [] then st else (update_config_from_string st r).1 := by
  simp only [handle_client_connection]
  rw [cstr_eq_self hnonul, breakAt_append h '\n' r hnl]
  simp only [hstoull]
  rfl

/-- Witness for C2: the declared length 14 exceeds the 7 delivered body
bytes, and the handler merges the partial body anyway. -/
theorem claim_C2_witness :
    ('\n' ∉ chars "14") ∧ stoull (chars "14") = some 14 ∧
    (chars "[A]x=1\n").length < 14 ∧
    handle_client_connection [] [chars "14" ++ '\n' :: chars "[A]x=1\n"] =
      (if (chars "[A]x=1\n") = [] then ([] : Store)
       else (update_config_from_string [] (chars "[A]x=1\n")).1) :=
  ⟨by decide, by decide, by decide,
   claim_C2_truncation [] (chars "14") (chars "[A]x=1\n") 14
     (by decide) (by decide) (by decide) (by decide)⟩

/-- Claim C3, counterexample: the buffer `"[A]x=1\n"` contains a newline
whose prefix `"[A]x=1"` is not a valid integer, so the receiver discards
it — the store stays empty — even though merging it as a literal body
would have set `[A] x = 1`. -/
theorem claim_C3_counterexample :
    handle_client_connection [] [chars "[A]x=1\n"] = [] ∧
    (update_config_from_string [] (chars "[A]x=1\n")).1 =
      [(chars "A", [(chars "x", chars "1")])] := by
  decide

/-- Claim C3, amended: the legacy fallback applies exactly when the first
received chunk contains no newline at all — then the whole buffer is
merged as the literal body; when a newline is present but the prefix fails
`std::stoull`, the message is discarded with no merge. -/
theorem claim_C3_legacy (st : Store) (rest : List Str) (c h r : Str) :
    ((∀ ch ∈ c, ch.toNat ≠ 0) → '\n' ∉ c → c ≠ [] →
      handle_client_connection st (c :: rest) =
        (update_config_from_string st c).1) ∧
    ((∀ ch ∈ h ++ '\n' :: r, ch.toNat ≠ 0) → '\n' ∉ h → stoull h = none →
      handle_client_connection st ((h ++ '\n' :: r) :: rest) = st) := by
  constructor
  · intro hnonul hnl hne
    simp only [handle_client_connection]
    rw [cstr_eq_self hnonul, breakAt_none c '\n' hnl]
    simp [hne]
  · intro hnonul hnl hbad
    simp only [handle_client_connection]
    rw [cstr_eq_self hnonul, breakAt_append h '\n' r hnl]
    simp only [hbad]

/-- Witness for C3: `"[A]x=1"` without a newline is merged as a legacy
body; `"[A]x=1\n"` (a newline with a non-numeric prefix) is discarded. -/
theorem claim_C3_witness :
    ('\n' ∉ chars "[A]x=1") ∧ stoull (chars "[A]x=1") = none ∧
    handle_client_connection [] [chars "[A]x=1"] =
      (update_config_from_string [] (chars "[A]x=1")).1 ∧
    handle_client_connection [] [chars "[A]x=1" ++ '\n' :: ([] : Str)] = [] :=
  ⟨by decide, by decide,
   (claim_C3_legacy [] [] (chars "[A]x=1") (chars "[A]x=1") []).1
     (by decide) (by decide) (by decide),
   (claim_C3_legacy [] [] (chars "[A]x=1") (chars "[A]x=1") []).2
     (by decide) (by decide) (by decide)⟩
